import Mathlib

/-!
A verification development for the Telegraph article conversion core
(file work_issue_1.py): the position encoder, the blockquote tag
converter, the builder's merge-and-reorder step, the structural
precondition checks of the builder, and the exception taxonomy.

HTML trees parsed by the underlying library are modelled by the
inductive type Node; library behaviours used by the code (find_all,
find with a class filter, the string property and its setter, attribute
lookup, dict union and update) are embedded as executable functions.
-/

/-! ## Python decimal rendering and rjust -/

/-- Decimal digit character, as produced by Python str() on a digit. -/
def digitToChar : Nat → Char
  | 0 => '0'
  | 1 => '1'
  | 2 => '2'
  | 3 => '3'
  | 4 => '4'
  | 5 => '5'
  | 6 => '6'
  | 7 => '7'
  | 8 => '8'
  | 9 => '9'
  | _ => '*'

/-- Fuel-driven digit expansion of a natural number, most significant digit
first; fuel n+1 always suffices for input n. -/
def natToDecAux : Nat → Nat → List Char
  | 0, _ => []
  | fuel+1, n =>
      if n < 10 then [digitToChar n]
      else natToDecAux fuel (n / 10) ++ [digitToChar (n % 10)]

/-- Python str() on a non-negative int: its decimal digits. -/
def pyStrNat (n : Nat) : List Char := natToDecAux (n + 1) n

/-- Python str() on an int-or-None value: None prints as the four
characters of the word None. -/
def pyStrOptNat : Option Nat → List Char
  | Option.none => ['N', 'o', 'n', 'e']
  | some n => pyStrNat n

/-- Python str.rjust: pad on the left with the fill character up to the
requested width; a longer string is returned unchanged. -/
def pyRjust (l : List Char) (width : Nat) (fill : Char) : List Char :=
  List.replicate (width - l.length) fill ++ l

/-- The position encoder get_tag_position of the source: renders line
(width 7), position (width 5) and sequence (width 2) zero-padded and
concatenates.  The sequence parameter has Python default 1, and an
explicit None is mapped to 0 by the body of the function.  line and
position are passed through str() unchecked, so a None value prints as
the word None. -/
def get_tag_position (line position : Option Nat)
    (sequence : Option Nat := some 1) : String :=
  let seq : Nat := sequence.getD 0
  String.mk (pyRjust (pyStrOptNat line) 7 '0' ++
             pyRjust (pyStrOptNat position) 5 '0' ++
             pyRjust (pyStrNat seq) 2 '0')

/-! ## The document tree model -/

/-- A parsed HTML node: either a text node (NavigableString) or a tag
carrying its name, attribute list, source line, source column and
children. -/
inductive Node where
  | text : String → Node
  | tag : String → List (String × String) → Option Nat → Option Nat → List Node → Node

/-- Tag name of a node, if it is a tag. -/
def Node.name? : Node → Option String
  | Node.text _ => Option.none
  | Node.tag n _ _ _ _ => some n

/-- Attribute list of a node (text nodes have none). -/
def Node.attrs : Node → List (String × String)
  | Node.text _ => []
  | Node.tag _ a _ _ _ => a

/-- Source line of a tag as known to the parser. -/
def Node.sourceline : Node → Option Nat
  | Node.text _ => Option.none
  | Node.tag _ _ sl _ _ => sl

/-- Source column of a tag as known to the parser. -/
def Node.sourcepos : Node → Option Nat
  | Node.text _ => Option.none
  | Node.tag _ _ _ sp _ => sp

/-- Children list of a node. -/
def Node.children : Node → List Node
  | Node.text _ => []
  | Node.tag _ _ _ _ cs => cs

/-- Attribute lookup, modelling Tag.get with default None. -/
def Node.getAttr (n : Node) (key : String) : Option String :=
  (n.attrs.find? (fun kv => kv.1 == key)).map (fun kv => kv.2)

/-- The string property of a tag: defined only when the node has exactly
one child, in which case it is that child's text (recursively for a
single tag child); otherwise absent. -/
def Node.string? : Node → Option String
  | Node.text s => some s
  | Node.tag _ _ _ _ [c] => Node.string? c
  | Node.tag _ _ _ _ _ => Option.none

mutual

/-- All tags of the given name among the strict descendants of a node,
in document order (find_all). -/
def findAllTag (nm : String) : Node → List Node
  | Node.text _ => []
  | Node.tag _ _ _ _ cs => findAllForest nm cs

/-- All tags of the given name in a forest, in document order, roots
included. -/
def findAllForest (nm : String) : List Node → List Node
  | [] => []
  | c :: rest =>
      (match c with
       | Node.tag n _ _ _ _ => if n = nm then [c] else []
       | _ => []) ++ findAllTag nm c ++ findAllForest nm rest

end

/-- Method-style wrapper for find_all. -/
def Node.find_all (n : Node) (nm : String) : List Node := findAllTag nm n

mutual

/-- First tag among the strict descendants of a node satisfying the
predicate, in document order (find). -/
def findFirstTag (p : Node → Bool) : Node → Option Node
  | Node.text _ => Option.none
  | Node.tag _ _ _ _ cs => findFirstForest p cs

/-- First tag in a forest satisfying the predicate, in document order,
roots included. -/
def findFirstForest (p : Node → Bool) : List Node → Option Node
  | [] => Option.none
  | c :: rest =>
      match c with
      | Node.text _ => findFirstForest p rest
      | Node.tag _ _ _ _ _ =>
          if p c then some c
          else match findFirstTag p c with
               | some r => some r
               | Option.none => findFirstForest p rest

end

/-- Whether a tag's class attribute, split on spaces as the parser does
for the multi-valued class attribute, contains the given token. -/
def hasClassToken (n : Node) (cls : String) : Bool :=
  match n.getAttr ("class") with
  | some v => (v.splitOn (" ")).contains cls
  | Option.none => false

/-- soup.find with a tag name and a class_ filter. -/
def findDivWithClass (root : Node) (cls : String) : Option Node :=
  findFirstTag (fun c => c.name? == some ("div") && hasClassToken c cls) root

/-- soup.find of the first meta tag whose property attribute equals
og:title. -/
def findMetaOgTitle (root : Node) : Option Node :=
  findFirstTag (fun c => c.name? == some ("meta") &&
    c.getAttr ("property") == some ("og:title")) root

/-- soup.find of the first meta tag, used in the diagnostic message. -/
def findFirstMeta (root : Node) : Option Node :=
  findFirstTag (fun c => c.name? == some ("meta")) root

/-- soup.body: the first body tag of the document. -/
def findBody (root : Node) : Option Node :=
  findFirstTag (fun c => c.name? == some ("body")) root

/-! ## Python dicts keyed by position strings -/

/-- A Python dict from position key to tag, as an insertion-ordered
association list with unique keys. -/
abbrev TagDict := List (String × Node)

/-- The keys of a dict in insertion order. -/
def dictKeys (d : TagDict) : List String := d.map (fun kv => kv.1)

/-- Indexing a dict by key. -/
def dictLookup (d : TagDict) (k : String) : Option Node :=
  (d.find? (fun kv => kv.1 == k)).map (fun kv => kv.2)

/-- dict.update with a single pair: an existing key keeps its position
and receives the new value, a new key is appended. -/
def dictUpdate (d : TagDict) (k : String) (v : Node) : TagDict :=
  if d.any (fun kv => kv.1 == k)
  then d.map (fun kv => if kv.1 == k then (k, v) else kv)
  else d ++ [(k, v)]

/-- Python dict union d1 | d2: keys of d1 first in their order with
values overridden by d2 on collision, then the new keys of d2. -/
def dictUnion (d₁ d₂ : TagDict) : TagDict :=
  d₂.foldl (fun acc kv => dictUpdate acc kv.1 kv.2) d₁

/-! ## The blockquote converter -/

/-- A Python runtime error escaping a converter; the string setter of a
tag raises TypeError when handed None. -/
inductive PyError where
  | typeError : PyError

/-- new_tag of the parser: a fresh tag with no attributes, no source
position and no children. -/
def mkNewTag (nm : String) : Node := Node.tag nm [] Option.none Option.none []

/-- The string setter of a tag: replaces the children with a single text
node; handed None (by copying the string of a multi-child tag) it
raises TypeError. -/
def setTagString (n : Node) (s : Option String) : Except PyError Node :=
  match s with
  | some str =>
      match n with
      | Node.tag nm a sl sp _ => Except.ok (Node.tag nm a sl sp [Node.text str])
      | t => Except.ok t
  | Option.none => Except.error PyError.typeError

/-- Replacing the attribute list of a tag. -/
def Node.setAttrs : Node → List (String × String) → Node
  | Node.text s, _ => Node.text s
  | Node.tag nm _ sl sp cs, a => Node.tag nm a sl sp cs

/-- The one iteration of the convert_blockquote loop: build a fresh
blockquote, copy the string of the source tag (TypeError on None),
filter the fresh tag's attributes by the immutable policy dropping
class, and update the accumulator dict at the source position key. -/
def convertBlockquoteStep (new_tags : TagDict) (tg : Node) :
    Except PyError TagDict := do
  let new_tag := mkNewTag ("blockquote")
  let new_tag ← setTagString new_tag tg.string?
  let new_tag := new_tag.setAttrs
    (new_tag.attrs.filter (fun kv => !([(("class" : String))].contains kv.1)))
  pure (dictUpdate new_tags (get_tag_position tg.sourceline tg.sourcepos) new_tag)

/-- convert_blockquote of the source: scan the body for blockquote tags,
convert each, and return the mapping, or None when no tag was found. -/
def convert_blockquote (source_tag : Node) : Except PyError (Option TagDict) := do
  let new_tags ← (source_tag.find_all ("blockquote")).foldlM convertBlockquoteStep []
  pure (if new_tags.length > 0 then some new_tags else Option.none)

/-! ## The builder -/

/-- A tag converter as the builder consumes it: a pure function from the
body to an optional mapping from position key to converted tag. -/
abbrev Converter := Node → Option TagDict

/-- One iteration of the merge loop of TelegraphArticleBuilder._convert:
invoke the converter on the body and union a truthy result (a present,
nonempty mapping) into tags_with_position, the incoming entries winning
on key collision. -/
def mergeStep (body : Node) (tags_with_position : TagDict)
    (parser_func : Converter) : TagDict :=
  match parser_func body with
  | some converted_tags =>
      if converted_tags.isEmpty then tags_with_position
      else dictUnion tags_with_position converted_tags
  | Option.none => tags_with_position

/-- The merge loop of TelegraphArticleBuilder._convert: invoke each
converter in the given order and union the truthy results into
tags_with_position, later converters winning on key collision. -/
def mergedTags (body : Node) (tag_converters : List Converter) : TagDict :=
  tag_converters.foldl (mergeStep body) []

/-- TelegraphArticleBuilder._convert: merge the converter outputs, sort
the position keys ascending, and emit the tags in that order as the
children of a fresh document. -/
def _convert (body : Node) (tag_converters : List Converter) : List Node :=
  let tags_with_position := mergedTags body tag_converters
  let tags_positions :=
    (dictKeys tags_with_position).mergeSort (fun a b => decide (a ≤ b))
  tags_positions.filterMap (fun position => dictLookup tags_with_position position)

/-- The Telegraph page value: title (the content attribute of the title
meta tag, possibly absent), converted body, and the publish url and
path which are unset at creation. -/
structure TelegraphPage where
  title : Option String
  html : List Node
  url : Option String := Option.none
  path : Option String := Option.none

/-- Which structural precondition of build failed, with the detail the
raised HTMLParseError carries (the marker's string, or the first meta
tag dumped in the title diagnostic). -/
inductive HTMLParseErrorDetail where
  | serviceMsgError : Option String → HTMLParseErrorDetail
  | restrictedPlaceholder : Option String → HTMLParseErrorDetail
  | titleTagNotFound : Option Node → HTMLParseErrorDetail
  | bodyTagNotFound : HTMLParseErrorDetail

/-- TelegraphArticleBuilder.build on the parsed document: check the
service error marker, the restricted content placeholder, the og:title
meta tag and the body tag in this order, raising HTMLParseError on each
failure, then convert the body and wrap it in a page. -/
def build (soup : Node) (tag_converters : List Converter) :
    Except HTMLParseErrorDetail TelegraphPage :=
  match findDivWithClass soup ("service_msg_error") with
  | some error_message =>
      Except.error (HTMLParseErrorDetail.serviceMsgError error_message.string?)
  | Option.none =>
  match findDivWithClass soup ("article_layer_placeholder__text") with
  | some restricted_tag =>
      Except.error (HTMLParseErrorDetail.restrictedPlaceholder restricted_tag.string?)
  | Option.none =>
  match findMetaOgTitle soup with
  | Option.none =>
      Except.error (HTMLParseErrorDetail.titleTagNotFound (findFirstMeta soup))
  | some mtag =>
  match findBody soup with
  | Option.none => Except.error HTMLParseErrorDetail.bodyTagNotFound
  | some body =>
      Except.ok { title := mtag.getAttr ("content"),
                  html := _convert body tag_converters }

/-! ## The exception class hierarchy -/

/-- The exception classes of the source file, plus the Python base
Exception they hang from. -/
inductive ExcClass where
  | exceptionBase
  | publishingError
  | convertTagError
  | htmlParseError
deriving DecidableEq

/-- The declared direct superclass of each class, read off the class
headers of the source: PublishingError(Exception),
ConvertTagError(PublishingError), HTMLParseError(Exception). -/
def pySuperclass : ExcClass → Option ExcClass
  | ExcClass.exceptionBase => Option.none
  | ExcClass.publishingError => some ExcClass.exceptionBase
  | ExcClass.convertTagError => some ExcClass.publishingError
  | ExcClass.htmlParseError => some ExcClass.exceptionBase

/-- The superclass chain of a class, itself first; fuel 4 covers the
deepest chain of this hierarchy. -/
def ancestorChain : Nat → ExcClass → List ExcClass
  | 0, c => [c]
  | fuel+1, c =>
      c :: (match pySuperclass c with
            | some p => ancestorChain fuel p
            | Option.none => [])

/-- Whether a catch of the second class catches an instance of the
first: reflexive-transitive subclassing. -/
def isSubclassOf (c d : ExcClass) : Bool := (ancestorChain 4 c).contains d

/-! ## Concrete fixture documents from the source file -/

/-- The parse tree of BlockquoteTag.source, the single-blockquote test
fixture of the source file. -/
def blockquoteTagSource : Node :=
  Node.tag ("[document]") [] Option.none Option.none
    [Node.tag ("blockquote")
      [(("class"), ("article_decoration_first article_decoration_last"))]
      (some 1) (some 0)
      [Node.text ("Будут ли разные виды феодализма?")]]

/-- The parse tree of BlockquoteTagWithChildStrong.source, the nested
strong test fixture of the source file: the blockquote has three
children. -/
def blockquoteWithChildStrongSource : Node :=
  Node.tag ("[document]") [] Option.none Option.none
    [Node.tag ("blockquote") [(("class"), ("article_decoration_first"))]
      (some 1) (some 0)
      [Node.text ("«"),
       Node.tag ("strong") [(("class"), (""))] (some 1) (some 46)
         [Node.text ("адАккарийский народ")],
       Node.text ("!")]]

/-- A blockquote carrying a second attribute besides class, to probe
attribute retention. -/
def blockquoteWithExtraAttr : Node :=
  Node.tag ("[document]") [] Option.none Option.none
    [Node.tag ("blockquote") [(("class"), ("x")), (("id"), ("y"))]
      (some 1) (some 0)
      [Node.text ("t")]]

/-- convert_blockquote run as a total converter; on every body of this
development's concrete fixtures it succeeds, so the wrapper agrees
with the converter there. -/
def convert_blockquote_run (b : Node) : Option TagDict :=
  match convert_blockquote b with
  | Except.ok r => r
  | Except.error _ => Option.none

/-- A body already converted once: the output document of _convert on
the single-blockquote fixture with the blockquote converter. -/
def convertedTestBody : Node :=
  Node.tag ("[document]") [] Option.none Option.none
    (_convert blockquoteTagSource [convert_blockquote_run])

/-! ## Decimal rendering: supporting lemmas -/

/-- The fuel argument of natToDecAux is irrelevant once it exceeds the
input. -/
theorem natToDecAux_fuel_eq :
    ∀ f₁ f₂ n : Nat, n < f₁ → n < f₂ → natToDecAux f₁ n = natToDecAux f₂ n := by
  intro f₁
  induction f₁ with
  | zero => intro f₂ n h₁ _; omega
  | succ k ih =>
      intro f₂ n h₁ h₂
      cases f₂ with
      | zero => omega
      | succ m =>
          simp only [natToDecAux]
          by_cases hn : n < 10
          · simp [hn]
          · have hdiv : n / 10 < n := Nat.div_lt_self (by omega) (by omega)
            simp only [hn, if_false]
            rw [ih m (n / 10) (by omega) (by omega)]

/-- str() of a one-digit number. -/
theorem pyStrNat_lt_ten {n : Nat} (h : n < 10) : pyStrNat n = [digitToChar n] := by
  simp [pyStrNat, natToDecAux, h]

/-- str() of a larger number splits off its last digit. -/
theorem pyStrNat_ge_ten {n : Nat} (h : 10 ≤ n) :
    pyStrNat n = pyStrNat (n / 10) ++ [digitToChar (n % 10)] := by
  have hdiv : n / 10 < n := Nat.div_lt_self (by omega) (by omega)
  conv_lhs => rw [pyStrNat, natToDecAux]
  rw [if_neg (by omega)]
  rw [natToDecAux_fuel_eq n (n / 10 + 1) (n / 10) (by omega) (by omega)]
  rfl

/-- Code point of a digit character. -/
theorem digitToChar_toNat : ∀ d, d < 10 → (digitToChar d).toNat = 48 + d := by decide

/-- Digit characters compare like the digits they render. -/
theorem digitToChar_lt_iff :
    ∀ d₁, d₁ < 10 → ∀ d₂, d₂ < 10 →
      ((digitToChar d₁ < digitToChar d₂) ↔ d₁ < d₂) := by decide

/-- A character that renders some decimal digit. -/
def IsDigitChar (c : Char) : Prop := ∃ d, d < 10 ∧ c = digitToChar d

/-- Every character of str() on a natural number is a digit. -/
theorem pyStrNat_digits (n : Nat) : ∀ c ∈ pyStrNat n, IsDigitChar c := by
  induction n using Nat.strong_induction_on with
  | _ n ih =>
      by_cases hn : n < 10
      · rw [pyStrNat_lt_ten hn]
        intro c hc
        simp at hc
        exact ⟨n, hn, hc⟩
      · rw [pyStrNat_ge_ten (by omega)]
        intro c hc
        rcases List.mem_append.mp hc with h | h
        · exact ih (n / 10) (Nat.div_lt_self (by omega) (by omega)) c h
        · simp at h
          exact ⟨n % 10, Nat.mod_lt _ (by omega), h⟩

/-- One step of the place-value accumulator: shift and add the digit. -/
def charsValStep (acc : Nat) (c : Char) : Nat := acc * 10 + (c.toNat - 48)

/-- The numeric value of a digit string. -/
def charsVal (l : List Char) : Nat := l.foldl charsValStep 0

/-- Folding the place-value step from any accumulator. -/
theorem charsVal_foldl_acc :
    ∀ l : List Char, ∀ acc : Nat,
      l.foldl charsValStep acc = acc * 10 ^ l.length + charsVal l := by
  intro l
  induction l with
  | nil => intro acc; simp [charsVal]
  | cons c l ih =>
      intro acc
      have hcv : charsVal (c :: l) = charsValStep 0 c * 10 ^ l.length + charsVal l := by
        simp only [charsVal, List.foldl_cons]
        exact ih (charsValStep 0 c)
      simp only [List.foldl_cons, List.length_cons, hcv]
      rw [ih (charsValStep acc c)]
      simp only [charsValStep, charsVal]
      ring

/-- Value of a digit string with its head split off. -/
theorem charsVal_cons (c : Char) (l : List Char) :
    charsVal (c :: l) = (c.toNat - 48) * 10 ^ l.length + charsVal l := by
  have h := charsVal_foldl_acc l (charsValStep 0 c)
  have h2 : charsVal (c :: l) = List.foldl charsValStep (charsValStep 0 c) l := by
    simp only [charsVal, List.foldl_cons]
  rw [h2, h, charsValStep]
  ring

/-- Value of a concatenation of digit strings. -/
theorem charsVal_append (l₁ l₂ : List Char) :
    charsVal (l₁ ++ l₂) = charsVal l₁ * 10 ^ l₂.length + charsVal l₂ := by
  simp only [charsVal, List.foldl_append]
  exact charsVal_foldl_acc l₂ (l₁.foldl charsValStep 0)

/-- str() is a faithful rendering: its value is the number itself. -/
theorem charsVal_pyStrNat (n : Nat) : charsVal (pyStrNat n) = n := by
  induction n using Nat.strong_induction_on with
  | _ n ih =>
      by_cases hn : n < 10
      · rw [pyStrNat_lt_ten hn]
        rw [charsVal_cons]
        simp [charsVal, digitToChar_toNat n hn]
      · rw [pyStrNat_ge_ten (by omega), charsVal_append]
        rw [ih (n / 10) (Nat.div_lt_self (by omega) (by omega))]
        rw [charsVal_cons]
        simp [charsVal, digitToChar_toNat (n % 10) (Nat.mod_lt _ (by omega))]
        omega

/-- str() never renders an empty string. -/
theorem pyStrNat_ne_nil (n : Nat) : pyStrNat n ≠ [] := by
  by_cases hn : n < 10
  · rw [pyStrNat_lt_ten hn]; simp
  · rw [pyStrNat_ge_ten (by omega)]; simp

/-- A number below 10 to the w renders in at most w digits. -/
theorem pyStrNat_length_le :
    ∀ n w : Nat, 1 ≤ w → n < 10 ^ w → (pyStrNat n).length ≤ w := by
  intro n
  induction n using Nat.strong_induction_on with
  | _ n ih =>
      intro w hw hn
      by_cases h10 : n < 10
      · rw [pyStrNat_lt_ten h10]; simpa using hw
      · have hw2 : 2 ≤ w := by
          by_contra hcon
          have hw1 : w = 1 := by omega
          rw [hw1] at hn
          simp at hn
          omega
        have hdivlt : n / 10 < n := Nat.div_lt_self (by omega) (by omega)
        have hdivbound : n / 10 < 10 ^ (w - 1) := by
          have h1 : n < 10 ^ (w - 1) * 10 := by
            have : 10 ^ (w - 1) * 10 = 10 ^ w := by
              rw [← pow_succ]
              congr 1
              omega
            omega
          omega
        have := ih (n / 10) hdivlt (w - 1) (by omega) hdivbound
        rw [pyStrNat_ge_ten (by omega)]
        simp
        omega

/-- rjust pads exactly to the requested width. -/
theorem pyRjust_length {l : List Char} {w : Nat} (c : Char) (h : l.length ≤ w) :
    (pyRjust l w c).length = w := by
  simp [pyRjust]
  omega

/-- Zero-padding keeps every character a digit. -/
theorem pyRjust_digits {l : List Char} (w : Nat)
    (h : ∀ c ∈ l, IsDigitChar c) : ∀ c ∈ pyRjust l w '0', IsDigitChar c := by
  intro c hc
  rcases List.mem_append.mp hc with h' | h'
  · have := List.eq_of_mem_replicate h'
    exact ⟨0, by omega, by rw [this]; rfl⟩
  · exact h c h'

/-- Leading zeros do not change the value of a digit string. -/
theorem charsVal_replicate_zero :
    ∀ k : Nat, ∀ l : List Char, charsVal (List.replicate k '0' ++ l) = charsVal l := by
  intro k
  induction k with
  | zero => intro l; simp
  | succ m ih =>
      intro l
      rw [List.replicate_succ, List.cons_append]
      have h0 : charsValStep 0 '0' = 0 := by decide
      simp only [charsVal, List.foldl_cons, h0]
      exact ih l

/-- Zero-padding does not change the value. -/
theorem charsVal_pyRjust (l : List Char) (w : Nat) :
    charsVal (pyRjust l w '0') = charsVal l :=
  charsVal_replicate_zero (w - l.length) l

/-- The value of a digit string is below 10 to its length. -/
theorem charsVal_lt_pow :
    ∀ l : List Char, (∀ c ∈ l, IsDigitChar c) → charsVal l < 10 ^ l.length := by
  intro l
  induction l with
  | nil => simp [charsVal]
  | cons c l ih =>
      intro h
      rw [charsVal_cons]
      obtain ⟨d, hd, hc⟩ := h c (List.mem_cons_self c l)
      have hv : c.toNat - 48 ≤ 9 := by
        rw [hc, digitToChar_toNat d hd]
        omega
      have htail := ih (fun x hx => h x (List.mem_cons_of_mem _ hx))
      have step1 : (c.toNat - 48) * 10 ^ l.length + charsVal l <
          (c.toNat - 48) * 10 ^ l.length + 10 ^ l.length := by omega
      have step2 : (c.toNat - 48) * 10 ^ l.length + 10 ^ l.length =
          ((c.toNat - 48) + 1) * 10 ^ l.length := by ring
      have step3 : ((c.toNat - 48) + 1) * 10 ^ l.length ≤ 10 * 10 ^ l.length :=
        Nat.mul_le_mul (by omega) (le_refl _)
      calc (c.toNat - 48) * 10 ^ l.length + charsVal l
      _ < ((c.toNat - 48) + 1) * 10 ^ l.length := by omega
      _ ≤ 10 * 10 ^ l.length := step3
      _ = 10 ^ (l.length + 1) := by ring
      _ = 10 ^ (c :: l).length := by simp

/-- Shifted digit blocks with a smaller leading block compare strictly. -/
theorem blockLt {d₁ d₂ v₁ v₂ k : Nat} (hv₁ : v₁ < 10 ^ k) (hd : d₁ < d₂) :
    d₁ * 10 ^ k + v₁ < d₂ * 10 ^ k + v₂ := by
  have step2 : d₁ * 10 ^ k + 10 ^ k = (d₁ + 1) * 10 ^ k := by ring
  have step3 : (d₁ + 1) * 10 ^ k ≤ d₂ * 10 ^ k :=
    Nat.mul_le_mul (by omega) (le_refl _)
  omega

/-- Unfolding lexicographic comparison of nonempty lists. -/
theorem lex_cons_iff {α : Type} [LT α] {a b : α} {l₁ l₂ : List α} :
    List.Lex (fun x y : α => x < y) (a :: l₁) (b :: l₂) ↔
      a < b ∨ a = b ∧ List.Lex (fun x y : α => x < y) l₁ l₂ := by
  constructor
  · intro h
    cases h with
    | cons h => exact Or.inr ⟨rfl, h⟩
    | rel h => exact Or.inl h
  · intro h
    rcases h with h | ⟨rfl, h⟩
    · exact List.Lex.rel h
    · exact List.Lex.cons h

/-- On equal-length digit strings, lexicographic order is numeric order
of the values. -/
theorem lex_iff_charsVal :
    ∀ l₁ l₂ : List Char, l₁.length = l₂.length →
      (∀ c ∈ l₁, IsDigitChar c) → (∀ c ∈ l₂, IsDigitChar c) →
      (List.Lex (fun x y : Char => x < y) l₁ l₂ ↔ charsVal l₁ < charsVal l₂) := by
  intro l₁
  induction l₁ with
  | nil =>
      intro l₂ hlen _ _
      have : l₂ = [] := by
        cases l₂ with
        | nil => rfl
        | cons b t => simp at hlen
      subst this
      constructor
      · intro h; cases h
      · intro h; simp [charsVal] at h
  | cons a l₁ ih =>
      intro l₂ hlen h₁ h₂
      cases l₂ with
      | nil => simp at hlen
      | cons b l₂ =>
          obtain ⟨da, hda, hae⟩ := h₁ a (List.mem_cons_self a l₁)
          obtain ⟨db, hdb, hbe⟩ := h₂ b (List.mem_cons_self b l₂)
          have hlen' : l₁.length = l₂.length := by simpa using hlen
          have h₁' : ∀ c ∈ l₁, IsDigitChar c :=
            fun c hc => h₁ c (List.mem_cons_of_mem _ hc)
          have h₂' : ∀ c ∈ l₂, IsDigitChar c :=
            fun c hc => h₂ c (List.mem_cons_of_mem _ hc)
          have hva : a.toNat - 48 = da := by rw [hae, digitToChar_toNat da hda]; omega
          have hvb : b.toNat - 48 = db := by rw [hbe, digitToChar_toNat db hdb]; omega
          rw [charsVal_cons, charsVal_cons, hva, hvb, hlen']
          rcases Nat.lt_trichotomy da db with h | h | h
          · apply iff_of_true
            · exact List.Lex.rel (hae ▸ hbe ▸ (digitToChar_lt_iff da hda db hdb).mpr h)
            · exact blockLt ((charsVal_lt_pow l₁ h₁').trans_eq (by rw [hlen'])) h
          · have hab : a = b := by rw [hae, hbe, h]
            subst hab
            rw [lex_cons_iff]
            have hirr : ¬ a < a := lt_irrefl a
            subst h
            constructor
            · intro hx
              rcases hx with hx | ⟨_, hx⟩
              · exact absurd hx hirr
              · have := (ih l₂ hlen' h₁' h₂').mp hx
                omega
            · intro hx
              refine Or.inr ⟨rfl, (ih l₂ hlen' h₁' h₂').mpr ?_⟩
              omega
          · apply iff_of_false
            · intro hx
              rcases lex_cons_iff.mp hx with hx | ⟨hx, _⟩
              · rw [hae, hbe] at hx
                exact absurd ((digitToChar_lt_iff da hda db hdb).mp hx) (by omega)
              · rw [hae, hbe] at hx
                have : (digitToChar da).toNat = (digitToChar db).toNat := by rw [hx]
                rw [digitToChar_toNat da hda, digitToChar_toNat db hdb] at this
                omega
            · have := @blockLt db da (charsVal l₂) (charsVal l₁) l₂.length
                (charsVal_lt_pow l₂ h₂') h
              omega

/-! ## The composite position key -/

/-- The character content of a position key built from in-range numeric
components. -/
def tagPosChars (l p s : Nat) : List Char :=
  pyRjust (pyStrNat l) 7 '0' ++
    (pyRjust (pyStrNat p) 5 '0' ++ pyRjust (pyStrNat s) 2 '0')

/-- get_tag_position on numeric components is exactly the composite key. -/
theorem get_tag_position_some_eq (l p s : Nat) :
    get_tag_position (some l) (some p) (some s) = String.mk (tagPosChars l p s) := by
  simp [get_tag_position, tagPosChars, pyStrOptNat, List.append_assoc]

/-- Every character of a composite key is a digit. -/
theorem tagPosChars_digits (l p s : Nat) : ∀ c ∈ tagPosChars l p s, IsDigitChar c := by
  intro c hc
  rcases List.mem_append.mp hc with h | h
  · exact pyRjust_digits 7 (pyStrNat_digits l) c h
  · rcases List.mem_append.mp h with h' | h'
    · exact pyRjust_digits 5 (pyStrNat_digits p) c h'
    · exact pyRjust_digits 2 (pyStrNat_digits s) c h'

/-- In-range components yield a key of exactly 14 characters. -/
theorem tagPosChars_length {l p s : Nat}
    (hl : l < 10 ^ 7) (hp : p < 10 ^ 5) (hs : s < 10 ^ 2) :
    (tagPosChars l p s).length = 14 := by
  have h₁ := pyRjust_length '0' (pyStrNat_length_le l 7 (by norm_num) hl)
  have h₂ := pyRjust_length '0' (pyStrNat_length_le p 5 (by norm_num) hp)
  have h₃ := pyRjust_length '0' (pyStrNat_length_le s 2 (by norm_num) hs)
  simp [tagPosChars, h₁, h₂, h₃]

/-- The numeric value of an in-range composite key. -/
theorem tagPosChars_val {l p s : Nat}
    (hl : l < 10 ^ 7) (hp : p < 10 ^ 5) (hs : s < 10 ^ 2) :
    charsVal (tagPosChars l p s) = l * 10 ^ 7 + (p * 10 ^ 2 + s) := by
  have hA : charsVal (pyRjust (pyStrNat l) 7 '0') = l := by
    rw [charsVal_pyRjust, charsVal_pyStrNat]
  have hB : charsVal (pyRjust (pyStrNat p) 5 '0') = p := by
    rw [charsVal_pyRjust, charsVal_pyStrNat]
  have hC : charsVal (pyRjust (pyStrNat s) 2 '0') = s := by
    rw [charsVal_pyRjust, charsVal_pyStrNat]
  have hlenB := pyRjust_length '0' (pyStrNat_length_le p 5 (by norm_num) hp)
  have hlenC := pyRjust_length '0' (pyStrNat_length_le s 2 (by norm_num) hs)
  rw [tagPosChars, charsVal_append, charsVal_append, hA, hB, hC,
    List.length_append, hlenB, hlenC]

/-- C2: get_tag_position renders its components as zero-padded fields of
widths 7, 5 and 2 and concatenates them into a 14-character key, and on
in-range components the standard string order of two keys is exactly
the lexicographic order of the component triples. -/
theorem get_tag_position_fixed_width_order (l₁ p₁ s₁ l₂ p₂ s₂ : Nat)
    (hl₁ : l₁ < 10 ^ 7) (hp₁ : p₁ < 10 ^ 5) (hs₁ : s₁ < 10 ^ 2)
    (hl₂ : l₂ < 10 ^ 7) (hp₂ : p₂ < 10 ^ 5) (hs₂ : s₂ < 10 ^ 2) :
    (get_tag_position (some l₁) (some p₁) (some s₁)).length = 14 ∧
    (get_tag_position (some l₁) (some p₁) (some s₁) <
        get_tag_position (some l₂) (some p₂) (some s₂) ↔
      l₁ < l₂ ∨ l₁ = l₂ ∧ (p₁ < p₂ ∨ p₁ = p₂ ∧ s₁ < s₂)) := by
  constructor
  · rw [get_tag_position_some_eq]
    show (tagPosChars l₁ p₁ s₁).length = 14
    exact tagPosChars_length hl₁ hp₁ hs₁
  · rw [get_tag_position_some_eq, get_tag_position_some_eq,
      String.lt_iff_toList_lt]
    show List.Lex (fun x y : Char => x < y)
      (tagPosChars l₁ p₁ s₁) (tagPosChars l₂ p₂ s₂) ↔ _
    rw [lex_iff_charsVal _ _
      (by rw [tagPosChars_length hl₁ hp₁ hs₁, tagPosChars_length hl₂ hp₂ hs₂])
      (tagPosChars_digits _ _ _) (tagPosChars_digits _ _ _)]
    rw [tagPosChars_val hl₁ hp₁ hs₁, tagPosChars_val hl₂ hp₂ hs₂]
    norm_num at hl₁ hp₁ hs₁ hl₂ hp₂ hs₂ ⊢
    omega

/-- Witness for C2 at the positions (2, 5) and (5, 1) of the order
example, default sequence on both sides. -/
theorem get_tag_position_fixed_width_order_witness :
    (get_tag_position (some 2) (some 5) (some 1)).length = 14 ∧
    (get_tag_position (some 2) (some 5) (some 1) <
        get_tag_position (some 5) (some 1) (some 1) ↔
      2 < 5 ∨ 2 = 5 ∧ (5 < 1 ∨ 5 = 1 ∧ 1 < 1)) :=
  get_tag_position_fixed_width_order 2 5 1 5 1 1 (by norm_num) (by norm_num)
    (by norm_num) (by norm_num) (by norm_num) (by norm_num)

/-- C7: omitting the sequence argument renders the default sequence 1,
an explicit None is mapped to sequence 0 by the body, and the two
resulting keys always differ. -/
theorem get_tag_position_sequence_asymmetry (line position : Option Nat) :
    get_tag_position line position =
      String.mk (pyRjust (pyStrOptNat line) 7 '0' ++
        pyRjust (pyStrOptNat position) 5 '0' ++ pyRjust (pyStrNat 1) 2 '0') ∧
    get_tag_position line position Option.none =
      String.mk (pyRjust (pyStrOptNat line) 7 '0' ++
        pyRjust (pyStrOptNat position) 5 '0' ++ pyRjust (pyStrNat 0) 2 '0') ∧
    get_tag_position line position ≠ get_tag_position line position Option.none := by
  refine ⟨rfl, rfl, ?_⟩
  intro h
  have h2 : (pyRjust (pyStrOptNat line) 7 '0' ++
      pyRjust (pyStrOptNat position) 5 '0' ++ pyRjust (pyStrNat 1) 2 '0' : List Char) =
      pyRjust (pyStrOptNat line) 7 '0' ++
      pyRjust (pyStrOptNat position) 5 '0' ++ pyRjust (pyStrNat 0) 2 '0' :=
    congrArg String.data h
  rw [List.append_assoc, List.append_assoc] at h2
  have h3 := List.append_cancel_left h2
  have h4 := List.append_cancel_left h3
  exact absurd h4 (by decide)

/-- C4: on the nested-strong fixture of the source file the blockquote
has three children, its string is absent, and the converter raises
TypeError from the string setter instead of producing the converted
blockquote that the file's own test asserts. -/
theorem convert_blockquote_child_strong_raises :
    convert_blockquote blockquoteWithChildStrongSource =
      Except.error PyError.typeError := rfl

/-- Counterexample to C6: HTMLParseError is declared directly on
Exception, so a catch of PublishingError does not catch it. -/
theorem htmlParseError_not_under_publishingError :
    isSubclassOf ExcClass.htmlParseError ExcClass.publishingError = false := rfl

/-- C6 amended: ConvertTagError descends from PublishingError, but
HTMLParseError descends directly from Exception and is not caught at
the PublishingError level. -/
theorem exception_hierarchy_amended :
    isSubclassOf ExcClass.convertTagError ExcClass.publishingError = true ∧
    isSubclassOf ExcClass.htmlParseError ExcClass.publishingError = false ∧
    isSubclassOf ExcClass.htmlParseError ExcClass.exceptionBase = true ∧
    isSubclassOf ExcClass.publishingError ExcClass.exceptionBase = true :=
  ⟨rfl, rfl, rfl, rfl⟩

/-! ## Dict lemmas -/

/-- dict.update on a present key: the mapped list's first hit is the
replaced pair. -/
theorem find?_map_update (d : TagDict) (k : String) (v : Node)
    (h : d.any (fun kv => kv.1 == k) = true) :
    (d.map (fun kv => if kv.1 == k then (k, v) else kv)).find?
      (fun kv => kv.1 == k) = some (k, v) := by
  induction d with
  | nil => simp at h
  | cons kv₀ rest ih =>
      rw [List.any_cons] at h
      simp only [List.map_cons]
      by_cases hk : (kv₀.1 == k) = true
      · have hg : (if kv₀.1 == k then (k, v) else kv₀) = (k, v) := if_pos hk
        rw [hg]
        exact List.find?_cons_of_pos _ (by simp)
      · have hg : (if kv₀.1 == k then (k, v) else kv₀) = kv₀ := if_neg hk
        rw [hg]
        have hfc : List.find? (fun kv => kv.1 == k)
            (kv₀ :: List.map (fun kv => if kv.1 == k then (k, v) else kv) rest) =
            List.find? (fun kv => kv.1 == k)
              (List.map (fun kv => if kv.1 == k then (k, v) else kv) rest) :=
          List.find?_cons_of_neg _ hk
        rw [hfc]
        apply ih
        rcases Bool.or_eq_true_iff.mp h with h' | h'
        · exact absurd h' hk
        · exact h'

/-- Indexing after update at the same key returns the new value. -/
theorem dictLookup_update_self (d : TagDict) (k : String) (v : Node) :
    dictLookup (dictUpdate d k v) k = some v := by
  unfold dictUpdate
  by_cases h : d.any (fun kv => kv.1 == k) = true
  · rw [if_pos h]
    unfold dictLookup
    rw [find?_map_update d k v h]
    rfl
  · rw [if_neg h]
    unfold dictLookup
    rw [List.find?_append]
    have hnone : d.find? (fun kv => kv.1 == k) = Option.none := by
      rw [List.find?_eq_none]
      intro x hx hpx
      exact h (List.any_eq_true.mpr ⟨x, hx, hpx⟩)
    rw [hnone]
    simp

/-- Replacing a key's value does not move the first hit of a different
key. -/
theorem find?_map_update_ne (d : TagDict) (k k' : String) (v : Node)
    (hne : k' ≠ k) :
    (d.map (fun kv => if kv.1 == k then (k, v) else kv)).find?
      (fun kv => kv.1 == k') = d.find? (fun kv => kv.1 == k') := by
  induction d with
  | nil => rfl
  | cons kv₀ rest ih =>
      simp only [List.map_cons]
      by_cases hk : (kv₀.1 == k) = true
      · have hkeq : kv₀.1 = k := by simpa using hk
        have hg : (if kv₀.1 == k then (k, v) else kv₀) = (k, v) := if_pos hk
        rw [hg]
        have hp : ¬ ((k, v).1 == k') = true := by
          simp
          exact fun e => hne e.symm
        have hp₀ : ¬ (kv₀.1 == k') = true := by
          simp [hkeq]
          exact fun e => hne e.symm
        have hfc₁ : List.find? (fun kv => kv.1 == k')
            ((k, v) :: List.map (fun kv => if kv.1 == k then (k, v) else kv) rest) =
            List.find? (fun kv => kv.1 == k')
              (List.map (fun kv => if kv.1 == k then (k, v) else kv) rest) :=
          List.find?_cons_of_neg _ hp
        have hfc₂ : List.find? (fun kv => kv.1 == k') (kv₀ :: rest) =
            List.find? (fun kv => kv.1 == k') rest :=
          List.find?_cons_of_neg _ hp₀
        rw [hfc₁, hfc₂]
        exact ih
      · have hg : (if kv₀.1 == k then (k, v) else kv₀) = kv₀ := if_neg hk
        rw [hg]
        by_cases hp₀ : (kv₀.1 == k') = true
        · have hfc₁ : List.find? (fun kv => kv.1 == k')
              (kv₀ :: List.map (fun kv => if kv.1 == k then (k, v) else kv) rest) =
              some kv₀ :=
            List.find?_cons_of_pos _ hp₀
          have hfc₂ : List.find? (fun kv => kv.1 == k') (kv₀ :: rest) = some kv₀ :=
            List.find?_cons_of_pos _ hp₀
          rw [hfc₁, hfc₂]
        · have hfc₁ : List.find? (fun kv => kv.1 == k')
              (kv₀ :: List.map (fun kv => if kv.1 == k then (k, v) else kv) rest) =
              List.find? (fun kv => kv.1 == k')
                (List.map (fun kv => if kv.1 == k then (k, v) else kv) rest) :=
            List.find?_cons_of_neg _ hp₀
          have hfc₂ : List.find? (fun kv => kv.1 == k') (kv₀ :: rest) =
              List.find? (fun kv => kv.1 == k') rest :=
            List.find?_cons_of_neg _ hp₀
          rw [hfc₁, hfc₂]
          exact ih

/-- Indexing after update at a different key is unchanged. -/
theorem dictLookup_update_ne (d : TagDict) (k k' : String) (v : Node)
    (hne : k' ≠ k) :
    dictLookup (dictUpdate d k v) k' = dictLookup d k' := by
  unfold dictUpdate
  by_cases h : d.any (fun kv => kv.1 == k) = true
  · rw [if_pos h]
    unfold dictLookup
    rw [find?_map_update_ne d k k' v hne]
  · rw [if_neg h]
    unfold dictLookup
    rw [List.find?_append]
    have hlast : ([(k, v)] : TagDict).find? (fun kv => kv.1 == k') = Option.none := by
      simp
      exact fun e => hne e.symm
    rw [hlast]
    simp

/-- The keys after an update: unchanged on a present key, the new key
appended otherwise. -/
theorem dictKeys_update (d : TagDict) (k : String) (v : Node) :
    dictKeys (dictUpdate d k v) =
      if d.any (fun kv => kv.1 == k) then dictKeys d else dictKeys d ++ [k] := by
  unfold dictUpdate dictKeys
  by_cases h : d.any (fun kv => kv.1 == k) = true
  · rw [if_pos h, if_pos h, List.map_map]
    apply List.map_congr_left
    intro kv _
    by_cases hk : kv.1 = k
    · simp [hk]
    · simp [hk]
  · rw [if_neg h, if_neg h]
    simp

/-- A present key is exactly a hit of the membership probe. -/
theorem dict_any_iff (d : TagDict) (k : String) :
    d.any (fun kv => kv.1 == k) = true ↔ k ∈ dictKeys d := by
  rw [List.any_eq_true]
  unfold dictKeys
  constructor
  · rintro ⟨kv, hkv, he⟩
    have heq : kv.1 = k := by simpa using he
    rw [← heq]
    exact List.mem_map_of_mem _ hkv
  · intro h
    obtain ⟨kv, hkv, he⟩ := List.mem_map.mp h
    exact ⟨kv, hkv, by simp [he]⟩

/-- Updates keep the keys without duplicates. -/
theorem dictKeys_update_nodup {d : TagDict} (k : String) (v : Node)
    (h : (dictKeys d).Nodup) : (dictKeys (dictUpdate d k v)).Nodup := by
  rw [dictKeys_update]
  by_cases ha : d.any (fun kv => kv.1 == k) = true
  · rw [if_pos ha]; exact h
  · rw [if_neg ha]
    rw [List.nodup_append]
    refine ⟨h, List.nodup_singleton k, ?_⟩
    intro x hx hk
    have : x = k := by simpa using hk
    subst this
    exact ha ((dict_any_iff d x).mpr hx)

/-- Unions keep the keys of the left dict without duplicates. -/
theorem dictKeys_union_nodup (d₂ : TagDict) :
    ∀ d₁ : TagDict, (dictKeys d₁).Nodup → (dictKeys (dictUnion d₁ d₂)).Nodup := by
  induction d₂ with
  | nil => intro d₁ h; exact h
  | cons kv rest ih =>
      intro d₁ h
      exact ih (dictUpdate d₁ kv.1 kv.2) (dictKeys_update_nodup kv.1 kv.2 h)

/-- A key absent from the right dict reads through the union. -/
theorem dictLookup_union_not_mem (d₂ : TagDict) :
    ∀ d₁ : TagDict, ∀ k : String, k ∉ dictKeys d₂ →
      dictLookup (dictUnion d₁ d₂) k = dictLookup d₁ k := by
  induction d₂ with
  | nil => intro d₁ k _; rfl
  | cons kv rest ih =>
      intro d₁ k hk
      have hk₁ : k ≠ kv.1 := by
        intro e
        exact hk (by simp [dictKeys, e])
      have hk₂ : k ∉ dictKeys rest := by
        intro e
        exact hk (by simp [dictKeys] at e ⊢; exact Or.inr e)
      show dictLookup (dictUnion (dictUpdate d₁ kv.1 kv.2) rest) k = _
      rw [ih (dictUpdate d₁ kv.1 kv.2) k hk₂]
      exact dictLookup_update_ne d₁ kv.1 k kv.2 hk₁

/-- The union reads the right dict's value on its keys: later converters
win. -/
theorem dictLookup_union_right (d₂ : TagDict) :
    ∀ d₁ : TagDict, ∀ k : String, ∀ v : Node,
      (dictKeys d₂).Nodup → dictLookup d₂ k = some v →
      dictLookup (dictUnion d₁ d₂) k = some v := by
  induction d₂ with
  | nil => intro d₁ k v _ h; simp [dictLookup] at h
  | cons kv rest ih =>
      intro d₁ k v hnd h
      have hnd2 : kv.1 ∉ dictKeys rest ∧ (dictKeys rest).Nodup := by
        have he : dictKeys (kv :: rest) = kv.1 :: dictKeys rest := rfl
        rw [he, List.nodup_cons] at hnd
        exact hnd
      show dictLookup (dictUnion (dictUpdate d₁ kv.1 kv.2) rest) k = some v
      by_cases hk : (kv.1 == k) = true
      · have hkeq : kv.1 = k := by simpa using hk
        have hv : v = kv.2 := by
          unfold dictLookup at h
          have hfc : List.find? (fun x => x.1 == k) (kv :: rest) = some kv :=
            List.find?_cons_of_pos _ hk
          rw [hfc] at h
          simp at h
          exact h.symm
        subst hkeq
        rw [dictLookup_union_not_mem rest _ kv.1 hnd2.1, hv]
        exact dictLookup_update_self d₁ kv.1 kv.2
      · have h' : dictLookup rest k = some v := by
          unfold dictLookup at h ⊢
          have hfc : List.find? (fun x => x.1 == k) (kv :: rest) =
              List.find? (fun x => x.1 == k) rest :=
            List.find?_cons_of_neg _ hk
          rw [hfc] at h
          exact h
        exact ih (dictUpdate d₁ kv.1 kv.2) k v hnd2.2 h'

/-! ## The merge loop and the sorted output -/

/-- The merged mapping over an extended converter list: the appended
converter is merged last. -/
theorem mergedTags_append_single (body : Node) (cs : List Converter) (f : Converter) :
    mergedTags body (cs ++ [f]) = mergeStep body (mergedTags body cs) f := by
  unfold mergedTags
  rw [List.foldl_append]
  rfl

/-- The merge loop preserves duplicate-free keys from any accumulator. -/
theorem foldl_mergeStep_nodup (body : Node) :
    ∀ cs : List Converter, ∀ acc : TagDict, (dictKeys acc).Nodup →
      (dictKeys (cs.foldl (mergeStep body) acc)).Nodup := by
  intro cs
  induction cs with
  | nil => intro acc h; exact h
  | cons f rest ih =>
      intro acc h
      rw [List.foldl_cons]
      apply ih
      unfold mergeStep
      cases f body with
      | none => exact h
      | some d =>
          by_cases hd : d.isEmpty
          · simp [hd, h]
          · simp [hd]
            exact dictKeys_union_nodup d acc h

/-- The merged mapping has duplicate-free keys. -/
theorem mergedTags_nodup (body : Node) (cs : List Converter) :
    (dictKeys (mergedTags body cs)).Nodup :=
  foldl_mergeStep_nodup body cs [] (by simp [dictKeys])

/-- A hit in any dict puts the key among the dict's keys. -/
theorem dictLookup_mem_keys {d : TagDict} {k : String} {v : Node}
    (h : dictLookup d k = some v) : k ∈ dictKeys d := by
  unfold dictLookup at h
  cases hf : d.find? (fun kv => kv.1 == k) with
  | none => rw [hf] at h; simp at h
  | some kv =>
      have hm := List.mem_of_find?_eq_some hf
      have hp := List.find?_some hf
      have : kv.1 = k := by simpa using hp
      rw [← this]
      exact List.mem_map_of_mem _ hm

/-- The keys sorted by the builder are pairwise ordered. -/
theorem sortedKeys_pairwise (ks : List String) :
    (ks.mergeSort (fun a b => decide (a ≤ b))).Pairwise
      (fun a b : String => a ≤ b) := by
  have htrans : ∀ a b c : String, (fun a b : String => decide (a ≤ b)) a b = true →
      (fun a b : String => decide (a ≤ b)) b c = true →
      (fun a b : String => decide (a ≤ b)) a c = true := by
    intro a b c hab hbc
    simp at hab hbc ⊢
    exact le_trans hab hbc
  have htotal : ∀ a b : String, ((fun a b : String => decide (a ≤ b)) a b ||
      (fun a b : String => decide (a ≤ b)) b a) = true := by
    intro a b
    simp [le_total]
  have h := @List.sorted_mergeSort String (fun a b : String => decide (a ≤ b))
    htrans htotal ks
  exact h.imp (by intro a b hab; simpa using hab)

/-- In a list sorted weakly ascending, two members in strict order form
a sublist in that order. -/
theorem pair_sublist_of_sorted :
    ∀ l : List String, l.Pairwise (fun a b : String => a ≤ b) →
      ∀ a b : String, a ∈ l → b ∈ l → a < b → [a, b].Sublist l := by
  intro l
  induction l with
  | nil => intro _ a b ha; simp at ha
  | cons x xs ih =>
      intro hp a b ha hb hab
      rw [List.pairwise_cons] at hp
      obtain ⟨hx, hp'⟩ := hp
      rcases List.mem_cons.mp ha with rfl | ha'
      · have hb' : b ∈ xs := by
          rcases List.mem_cons.mp hb with rfl | h
          · exact absurd hab (lt_irrefl _)
          · exact h
        exact List.Sublist.cons₂ a (List.singleton_sublist.mpr hb')
      · have hb' : b ∈ xs := by
          rcases List.mem_cons.mp hb with rfl | h
          · exact absurd (lt_of_lt_of_le hab (hx a ha')) (lt_irrefl _)
          · exact h
        exact List.Sublist.cons x (ih hp' a b ha' hb' hab)

/-- A two-element sublist yields two indices in order. -/
theorem sublist_pair_index {l : List Node} {a b : Node}
    (h : [a, b].Sublist l) :
    ∃ i j : Nat, i < j ∧ l[i]? = some a ∧ l[j]? = some b := by
  obtain ⟨is, hmap, hpw⟩ := List.sublist_eq_map_getElem h
  match is, hmap, hpw with
  | [i, j], hmap, hpw =>
      simp only [List.map_cons, List.map_nil] at hmap
      have ha : a = l[i] := by
        have := congrArg (fun t => t.head?) hmap
        simpa using this
      have hb : b = l[j] := by
        have := congrArg (fun t => t.tail.head?) hmap
        simpa using this
      have hij : i < j := by
        rw [List.pairwise_cons] at hpw
        exact hpw.1 j (by simp)
      refine ⟨i.1, j.1, hij, ?_, ?_⟩
      · rw [List.getElem?_eq_getElem i.isLt]
        exact congrArg some ha.symm
      · rw [List.getElem?_eq_getElem j.isLt]
        exact congrArg some hb.symm

/-- Everything the merged mapping holds is emitted by _convert. -/
theorem mem_convert {body : Node} {cs : List Converter} {k : String} {t : Node}
    (h : dictLookup (mergedTags body cs) k = some t) :
    t ∈ _convert body cs := by
  show t ∈ ((dictKeys (mergedTags body cs)).mergeSort
      (fun a b => decide (a ≤ b))).filterMap
    (fun position => dictLookup (mergedTags body cs) position)
  rw [List.mem_filterMap]
  refine ⟨k, ?_, h⟩
  rw [(List.mergeSort_perm _ _).mem_iff]
  exact dictLookup_mem_keys h

/-- C1: in the output of _convert, the tag at the position key of line 5
column 1 comes after the tag at the key of line 2 column 5, whatever
converters produced the two entries and in whatever order the
converters ran; and on a key collision the entry contributed by the
last-invoked converter of the list is the one emitted. -/
theorem convert_order_preserved_and_last_wins
    (body : Node) (cs cs₂ : List Converter) (f : Converter)
    (t₁ t₂ t : Node) (d : TagDict) (k : String)
    (h₁ : dictLookup (mergedTags body cs) (get_tag_position (some 2) (some 5)) =
      some t₁)
    (h₂ : dictLookup (mergedTags body cs) (get_tag_position (some 5) (some 1)) =
      some t₂)
    (hf : f body = some d) (hnd : (dictKeys d).Nodup)
    (hk : dictLookup d k = some t) :
    (∃ i j : Nat, i < j ∧ (_convert body cs)[i]? = some t₁ ∧
      (_convert body cs)[j]? = some t₂) ∧
    t ∈ _convert body (cs₂ ++ [f]) := by
  constructor
  · have hlt : get_tag_position (some 2) (some 5) <
        get_tag_position (some 5) (some 1) := by
      rw [String.lt_iff_toList_lt]
      decide
    have hmem₁ : get_tag_position (some 2) (some 5) ∈
        (dictKeys (mergedTags body cs)).mergeSort (fun a b => decide (a ≤ b)) := by
      rw [(List.mergeSort_perm _ _).mem_iff]
      exact dictLookup_mem_keys h₁
    have hmem₂ : get_tag_position (some 5) (some 1) ∈
        (dictKeys (mergedTags body cs)).mergeSort (fun a b => decide (a ≤ b)) := by
      rw [(List.mergeSort_perm _ _).mem_iff]
      exact dictLookup_mem_keys h₂
    have hsub := pair_sublist_of_sorted _
      (sortedKeys_pairwise (dictKeys (mergedTags body cs))) _ _ hmem₁ hmem₂ hlt
    have hsubf := List.Sublist.filterMap
      (fun position => dictLookup (mergedTags body cs) position) hsub
    have hfm : List.filterMap
        (fun position => dictLookup (mergedTags body cs) position)
        [get_tag_position (some 2) (some 5), get_tag_position (some 5) (some 1)] =
        [t₁, t₂] := by
      simp [List.filterMap_cons, h₁, h₂]
    rw [hfm] at hsubf
    exact sublist_pair_index hsubf
  · have hdne : d.isEmpty = false := by
      cases d with
      | nil => simp [dictLookup] at hk
      | cons a l => rfl
    have hmerged : mergedTags body (cs₂ ++ [f]) =
        dictUnion (mergedTags body cs₂) d := by
      rw [mergedTags_append_single]
      unfold mergeStep
      rw [hf]
      simp [hdne]
    exact mem_convert (by
      rw [hmerged]
      exact dictLookup_union_right d (mergedTags body cs₂) k t hnd hk)

/-- A body for the order-preservation witness. -/
def wBody : Node := Node.text ("b")

/-- A converter contributing the later tag of the order example. -/
def wConvA : Converter :=
  fun _ => some [(get_tag_position (some 5) (some 1), Node.text ("t2"))]

/-- A converter contributing the earlier tag of the order example. -/
def wConvB : Converter :=
  fun _ => some [(get_tag_position (some 2) (some 5), Node.text ("t1"))]

/-- An earlier converter for the collision branch of the witness. -/
def wConvOld : Converter := fun _ => some [(("k" : String), Node.text ("t0"))]

/-- The last-invoked converter of the collision branch of the witness. -/
def wConvNew : Converter := fun _ => some [(("k" : String), Node.text ("t"))]

/-- The mapping returned by the last-invoked converter of the witness. -/
def wDict : TagDict := [(("k" : String), Node.text ("t"))]

/-- Witness for C1: the converters are invoked in reversed document
order and the collision key is contributed twice, the later converter
last. -/
theorem convert_order_preserved_and_last_wins_witness :
    (∃ i j : Nat, i < j ∧
      (_convert wBody [wConvA, wConvB])[i]? = some (Node.text ("t1")) ∧
      (_convert wBody [wConvA, wConvB])[j]? = some (Node.text ("t2"))) ∧
    Node.text ("t") ∈ _convert wBody ([wConvOld] ++ [wConvNew]) :=
  convert_order_preserved_and_last_wins wBody [wConvA, wConvB] [wConvOld]
    wConvNew (Node.text ("t1")) (Node.text ("t2")) (Node.text ("t")) wDict ("k")
    (by rfl) (by rfl) (by rfl) (by simp [wDict, dictKeys]) (by rfl)

/-! ## Shape of a conversion step -/

/-- An update never empties a dict. -/
theorem dictUpdate_ne_nil (d : TagDict) (k : String) (v : Node) :
    dictUpdate d k v ≠ [] := by
  unfold dictUpdate
  by_cases h : d.any (fun kv => kv.1 == k) = true
  · rw [if_pos h]
    cases d with
    | nil => simp at h
    | cons a l => simp
  · rw [if_neg h]
    simp

/-- Every element of an updated dict is an old entry or the new pair. -/
theorem mem_dictUpdate {d : TagDict} {k : String} {v : Node} {kv : String × Node}
    (h : kv ∈ dictUpdate d k v) : kv ∈ d ∨ kv = (k, v) := by
  unfold dictUpdate at h
  by_cases ha : d.any (fun x => x.1 == k) = true
  · rw [if_pos ha] at h
    obtain ⟨x, hx, he⟩ := List.mem_map.mp h
    by_cases hk : (x.1 == k) = true
    · right
      rw [← he, if_pos hk]
    · left
      rw [← he, if_neg hk]
      exact hx
  · rw [if_neg ha] at h
    rcases List.mem_append.mp h with h' | h'
    · left; exact h'
    · right; simpa using h'

/-- A successful conversion step copies the tag's string into a fresh
attribute-less blockquote and updates the dict at the tag's position
key. -/
theorem convertBlockquoteStep_ok {acc : TagDict} {t : Node} {acc' : TagDict}
    (h : convertBlockquoteStep acc t = Except.ok acc') :
    ∃ s : String, t.string? = some s ∧
      acc' = dictUpdate acc (get_tag_position t.sourceline t.sourcepos)
        (Node.tag ("blockquote") [] Option.none Option.none [Node.text s]) := by
  unfold convertBlockquoteStep at h
  cases hs : t.string? with
  | none =>
      rw [hs] at h
      simp [setTagString, mkNewTag, Bind.bind, Except.bind] at h
  | some s =>
      rw [hs] at h
      refine ⟨s, rfl, ?_⟩
      simp [setTagString, mkNewTag, Node.setAttrs, Node.attrs, Bind.bind,
        Except.bind, Pure.pure, Except.pure] at h
      exact h.symm

/-- A failed conversion step is exactly an absent string. -/
theorem convertBlockquoteStep_error {acc : TagDict} {t : Node}
    (h : t.string? = Option.none) :
    convertBlockquoteStep acc t = Except.error PyError.typeError := by
  unfold convertBlockquoteStep
  rw [h]
  rfl

/-- The conversion loop keeps a nonempty accumulator nonempty. -/
theorem foldlM_convert_ne_nil :
    ∀ ts : List Node, ∀ acc : TagDict, acc ≠ [] →
      ∀ r : TagDict, ts.foldlM convertBlockquoteStep acc = Except.ok r → r ≠ [] := by
  intro ts
  induction ts with
  | nil =>
      intro acc hacc r h
      simp [List.foldlM_nil, Pure.pure, Except.pure] at h
      rw [← h]
      exact hacc
  | cons t ts ih =>
      intro acc hacc r h
      rw [List.foldlM_cons] at h
      cases hstep : convertBlockquoteStep acc t with
      | error e =>
          rw [hstep] at h
          simp [Bind.bind, Except.bind] at h
      | ok acc' =>
          rw [hstep] at h
          simp [Bind.bind, Except.bind] at h
          obtain ⟨s, _, hshape⟩ := convertBlockquoteStep_ok hstep
          exact ih acc' (hshape ▸ dictUpdate_ne_nil _ _ _) r h

/-- The conversion loop only ever stores attribute-less tags. -/
theorem foldlM_convert_attrs :
    ∀ ts : List Node, ∀ acc : TagDict, (∀ kv ∈ acc, (kv.2).attrs = []) →
      ∀ r : TagDict, ts.foldlM convertBlockquoteStep acc = Except.ok r →
      ∀ kv ∈ r, (kv.2).attrs = [] := by
  intro ts
  induction ts with
  | nil =>
      intro acc hacc r h
      simp [List.foldlM_nil, Pure.pure, Except.pure] at h
      rw [← h]
      exact hacc
  | cons t ts ih =>
      intro acc hacc r h
      rw [List.foldlM_cons] at h
      cases hstep : convertBlockquoteStep acc t with
      | error e =>
          rw [hstep] at h
          simp [Bind.bind, Except.bind] at h
      | ok acc' =>
          rw [hstep] at h
          simp [Bind.bind, Except.bind] at h
          obtain ⟨s, _, hshape⟩ := convertBlockquoteStep_ok hstep
          apply ih acc' ?_ r h
          intro kv hkv
          rw [hshape] at hkv
          rcases mem_dictUpdate hkv with h' | h'
          · exact hacc kv h'
          · rw [h']
            rfl

/-- A hit in a dict exhibits an entry carrying the value. -/
theorem dictLookup_mem_pair {d : TagDict} {k : String} {v : Node}
    (h : dictLookup d k = some v) : ∃ kv ∈ d, kv.2 = v := by
  unfold dictLookup at h
  cases hf : d.find? (fun kv => kv.1 == k) with
  | none => rw [hf] at h; simp at h
  | some kv =>
      rw [hf] at h
      simp at h
      exact ⟨kv, List.mem_of_find?_eq_some hf, h⟩

/-! ## The converter claims -/

/-- Counterexample to C3: a source blockquote carrying an id attribute
besides class is emitted with an empty attribute set; the id is not
retained. -/
theorem convert_blockquote_drops_other_attrs :
    convert_blockquote blockquoteWithExtraAttr =
      Except.ok (some [(("00000010000001" : String),
        Node.tag ("blockquote") [] Option.none Option.none [Node.text ("t")])]) ∧
    (("id" : String), ("y" : String)) ∉
      (Node.tag ("blockquote") [] Option.none Option.none [Node.text ("t")]).attrs :=
  ⟨rfl, by simp [Node.attrs]⟩

/-- C3 amended: the filtering policy runs on the freshly constructed
tag, whose attribute set is empty, so every emitted tag carries no
attributes at all (no source attribute is retained); on the fixture
with only a class attribute this still emits the bare blockquote with
its text. -/
theorem convert_blockquote_attrs_amended :
    (∀ b : Node, ∀ dd : TagDict, ∀ k : String, ∀ t : Node,
      convert_blockquote b = Except.ok (some dd) → dictLookup dd k = some t →
      t.attrs = []) ∧
    convert_blockquote blockquoteTagSource =
      Except.ok (some [(("00000010000001" : String),
        Node.tag ("blockquote") [] Option.none Option.none
          [Node.text ("Будут ли разные виды феодализма?")])]) := by
  constructor
  · intro b dd k t hconv hlook
    unfold convert_blockquote at hconv
    cases hres : (b.find_all ("blockquote")).foldlM convertBlockquoteStep [] with
    | error e =>
        rw [hres] at hconv
        simp [Bind.bind, Except.bind] at hconv
    | ok r =>
        rw [hres] at hconv
        simp [Bind.bind, Except.bind, Pure.pure, Except.pure] at hconv
        have hrd : dd = r := hconv.2.symm
        obtain ⟨kv, hkv, hkv2⟩ := dictLookup_mem_pair hlook
        have hres' := foldlM_convert_attrs _ [] (by simp) r hres kv (hrd ▸ hkv)
        rw [← hkv2]
        exact hres'
  · rfl

/-- Witness for C3 amended: the tag emitted for the extra-attribute
blockquote indeed carries no attributes. -/
theorem convert_blockquote_attrs_amended_witness :
    (Node.tag ("blockquote") [] Option.none Option.none [Node.text ("t")]).attrs = [] :=
  (convert_blockquote_attrs_amended).1 blockquoteWithExtraAttr
    [(("00000010000001" : String),
      Node.tag ("blockquote") [] Option.none Option.none [Node.text ("t")])]
    ("00000010000001")
    (Node.tag ("blockquote") [] Option.none Option.none [Node.text ("t")])
    rfl rfl

/-- The builder's output for a single-entry merged mapping is that
single tag. -/
theorem convert_singleton (body : Node) (cs : List Converter) (k : String) (v : Node)
    (h : mergedTags body cs = [(k, v)]) : _convert body cs = [v] := by
  simp only [_convert]
  rw [h]
  show ((dictKeys [(k, v)]).mergeSort (fun a b => decide (a ≤ b))).filterMap
    (fun position => dictLookup [(k, v)] position) = [v]
  have hkeys : dictKeys [(k, v)] = [k] := rfl
  rw [hkeys, List.mergeSort_singleton]
  simp [dictLookup]

/-- The converted test body: one bare blockquote holding the fixture's
text, stripped of position metadata. -/
theorem convertedTestBody_eq :
    convertedTestBody =
      Node.tag ("[document]") [] Option.none Option.none
        [Node.tag ("blockquote") [] Option.none Option.none
          [Node.text ("Будут ли разные виды феодализма?")]] := by
  unfold convertedTestBody
  rw [convert_singleton blockquoteTagSource [convert_blockquote_run]
    ("00000010000001")
    (Node.tag ("blockquote") [] Option.none Option.none
      [Node.text ("Будут ли разные виды феодализма?")]) rfl]

/-- Counterexample to C8: on the already-converted body the converter
finds the emitted blockquote again and returns a nonempty mapping (at
the placeholder key rendered from the absent source position), not the
absent contribution the claim asserts. -/
theorem convert_blockquote_rerun_nonempty :
    convert_blockquote convertedTestBody =
      Except.ok (some [(("000None0None01" : String),
        Node.tag ("blockquote") [] Option.none Option.none
          [Node.text ("Будут ли разные виды феодализма?")])]) ∧
    convert_blockquote convertedTestBody ≠ Except.ok Option.none := by
  have he : convert_blockquote convertedTestBody =
      Except.ok (some [(("000None0None01" : String),
        Node.tag ("blockquote") [] Option.none Option.none
          [Node.text ("Будут ли разные виды феодализма?")])]) := by
    rw [convertedTestBody_eq]
    rfl
  refine ⟨he, ?_⟩
  rw [he]
  simp

/-- C8 amended: the converter contributes nothing exactly when the body
holds no blockquote tags at all; the already-converted body still holds
a blockquote, so a re-run contributes again. -/
theorem convert_blockquote_empty_iff :
    (∀ b : Node, convert_blockquote b = Except.ok Option.none ↔
      b.find_all ("blockquote") = []) ∧
    convertedTestBody.find_all ("blockquote") ≠ [] := by
  constructor
  · intro b
    constructor
    · intro h
      by_contra hne
      cases hfa : b.find_all ("blockquote") with
      | nil => exact hne hfa
      | cons t ts =>
          unfold convert_blockquote at h
          rw [hfa, List.foldlM_cons] at h
          cases hstep : convertBlockquoteStep [] t with
          | error e =>
              rw [hstep] at h
              simp [Bind.bind, Except.bind] at h
          | ok acc' =>
              rw [hstep] at h
              simp only [Bind.bind, Except.bind] at h
              cases hres : ts.foldlM convertBlockquoteStep acc' with
              | error e =>
                  rw [hres] at h
                  simp [Bind.bind, Except.bind] at h
              | ok r =>
                  rw [hres] at h
                  simp [Bind.bind, Except.bind, Pure.pure, Except.pure] at h
                  obtain ⟨s, _, hshape⟩ := convertBlockquoteStep_ok hstep
                  exact foldlM_convert_ne_nil ts acc'
                    (hshape ▸ dictUpdate_ne_nil _ _ _) r hres h
    · intro h
      unfold convert_blockquote
      rw [h]
      rfl
  · have hfa : convertedTestBody.find_all ("blockquote") =
        [Node.tag ("blockquote") [] Option.none Option.none
          [Node.text ("Будут ли разные виды феодализма?")]] := by
      rw [convertedTestBody_eq]
      rfl
    rw [hfa]
    simp

/-- Witness for C8 amended at a body with no tags at all. -/
theorem convert_blockquote_empty_iff_witness :
    convert_blockquote (Node.text ("x")) = Except.ok Option.none ↔
      (Node.text ("x")).find_all ("blockquote") = [] :=
  (convert_blockquote_empty_iff).1 (Node.text ("x"))

/-! ## The builder claims -/

/-- C5: build raises exactly when a structural precondition fails: the
service error marker is present, the restricted content placeholder is
present, no og:title meta tag exists, or no body tag exists; otherwise
it returns a page. -/
theorem build_raises_iff (soup : Node) (cs : List Converter) :
    (∃ e, build soup cs = Except.error e) ↔
      ((findDivWithClass soup ("service_msg_error")).isSome ∨
       (findDivWithClass soup ("article_layer_placeholder__text")).isSome ∨
       findMetaOgTitle soup = Option.none ∨
       findBody soup = Option.none) := by
  unfold build
  cases h₁ : findDivWithClass soup ("service_msg_error") with
  | some m => simp [h₁]
  | none =>
      cases h₂ : findDivWithClass soup ("article_layer_placeholder__text") with
      | some m => simp [h₁, h₂]
      | none =>
          cases h₃ : findMetaOgTitle soup with
          | none => simp [h₁, h₂, h₃]
          | some mtag =>
              cases h₄ : findBody soup with
              | none => simp [h₁, h₂, h₃, h₄]
              | some b => simp [h₁, h₂, h₃, h₄]

/-- C9: build is a pure function of the parsed document and the ordered
converter list; equal inputs give equal pages with equal titles. -/
theorem build_deterministic (s₁ s₂ : Node) (cs₁ cs₂ : List Converter)
    (h₁ : s₁ = s₂) (h₂ : cs₁ = cs₂) :
    build s₁ cs₁ = build s₂ cs₂ ∧
    (build s₁ cs₁).map TelegraphPage.title =
      (build s₂ cs₂).map TelegraphPage.title := by
  subst h₁
  subst h₂
  exact ⟨rfl, rfl⟩

/-- Witness for C9 at a concrete document and empty converter list. -/
theorem build_deterministic_witness :
    build (Node.text ("x")) [] = build (Node.text ("x")) [] ∧
    (build (Node.text ("x")) []).map TelegraphPage.title =
      (build (Node.text ("x")) []).map TelegraphPage.title :=
  build_deterministic (Node.text ("x")) (Node.text ("x")) [] [] rfl rfl

/-- C10: a present og:title meta tag without a content attribute does
not raise; the built page carries an absent title. -/
theorem build_title_none (soup : Node) (cs : List Converter) (m b : Node)
    (h₁ : findDivWithClass soup ("service_msg_error") = Option.none)
    (h₂ : findDivWithClass soup ("article_layer_placeholder__text") = Option.none)
    (h₃ : findMetaOgTitle soup = some m)
    (h₄ : m.getAttr ("content") = Option.none)
    (h₅ : findBody soup = some b) :
    build soup cs = Except.ok
      { title := Option.none, html := _convert b cs,
        url := Option.none, path := Option.none } := by
  simp [build, h₁, h₂, h₃, h₄, h₅]

/-- A document whose og:title meta lacks a content attribute, with a
body present and no markers. -/
def wSoup : Node :=
  Node.tag ("[document]") [] Option.none Option.none
    [Node.tag ("html") [] (some 1) (some 0)
      [Node.tag ("head") [] (some 1) (some 6)
        [Node.tag ("meta") [(("property"), ("og:title"))] (some 1) (some 12) []],
       Node.tag ("body") [] (some 1) (some 50) []]]

/-- Witness for C10 on the content-less og:title document. -/
theorem build_title_none_witness :
    build wSoup [] = Except.ok
      { title := Option.none,
        html := _convert (Node.tag ("body") [] (some 1) (some 50) []) [],
        url := Option.none, path := Option.none } :=
  build_title_none wSoup []
    (Node.tag ("meta") [(("property"), ("og:title"))] (some 1) (some 12) [])
    (Node.tag ("body") [] (some 1) (some 50) []) rfl rfl rfl rfl rfl

/-- Witness for C5 at a concrete document with none of the structures. -/
theorem build_raises_iff_witness :
    (∃ e, build (Node.text ("n")) [] = Except.error e) ↔
      ((findDivWithClass (Node.text ("n")) ("service_msg_error")).isSome ∨
       (findDivWithClass (Node.text ("n")) ("article_layer_placeholder__text")).isSome ∨
       findMetaOgTitle (Node.text ("n")) = Option.none ∨
       findBody (Node.text ("n")) = Option.none) :=
  build_raises_iff (Node.text ("n")) []

/-- Witness for C7 at the concrete position line 3, column 4. -/
theorem get_tag_position_sequence_asymmetry_witness :
    get_tag_position (some 3) (some 4) =
      String.mk (pyRjust (pyStrOptNat (some 3)) 7 '0' ++
        pyRjust (pyStrOptNat (some 4)) 5 '0' ++ pyRjust (pyStrNat 1) 2 '0') ∧
    get_tag_position (some 3) (some 4) Option.none =
      String.mk (pyRjust (pyStrOptNat (some 3)) 7 '0' ++
        pyRjust (pyStrOptNat (some 4)) 5 '0' ++ pyRjust (pyStrNat 0) 2 '0') ∧
    get_tag_position (some 3) (some 4) ≠
      get_tag_position (some 3) (some 4) Option.none :=
  get_tag_position_sequence_asymmetry (some 3) (some 4)
